import Mathlib

/-!
Verification of the quality-ranking, request-building and URL-classification
logic of `src/downloader.py` (class `VideoDownloader` and the display helper
`display_qualities`).

The embedding mirrors the Python source statement by statement:

* a format dictionary entry that may be absent, explicitly `None`, or a
  number is modelled by `Field` (for `tbr` / `fps`) and `AVal` (for `abr`,
  which in the wild may also carry a non-numeric value);
* Python dictionaries (insertion-ordered) are modelled as association
  lists with in-place update (`dset`) and append-on-fresh-key;
* Python's stable `sorted(..., reverse=True)` is modelled by Mathlib's
  stable `List.insertionSort` with the relation "sort key is ≥";
* a Python `TypeError` (comparing `None` with a number, as
  `get_available_qualities` can do on the `tbr` field at line 88) is
  modelled by the `Except` monad;
* numeric field values are modelled by `Int`; every concrete value the
  program's documentation and scenarios mention is an integer.
-/

namespace Downloader

/-- Value of an optional numeric dictionary field: the key may be absent,
present with value `None`, or present with a number. -/
inductive Field where
  | absent
  | null
  | val (n : Int)
deriving DecidableEq

/-- Value of the `abr` field, which besides absent / `None` / numeric may
hold a non-numeric value (e.g. a string); only its truthiness matters to
the source, so the model records just that. -/
inductive AVal where
  | absent
  | null
  | num (n : Int)
  | other (truthy : Bool)
deriving DecidableEq

/-- One stream descriptor, the fields of a yt-dlp format dictionary that
`get_available_qualities`, `display_qualities` and `download_video` read.
`none` in an `Option` field means the key is absent. -/
structure Fmt where
  format_id : String := ""
  vcodec : Option String := none
  acodec : Option String := none
  height : Option Nat := none
  fps : Field := .absent
  tbr : Field := .absent
  abr : AVal := .absent
  ext : Option String := none
  filesize : Option Nat := none
  filesize_approx : Option Nat := none
deriving DecidableEq

/-- Truthiness of `f.get('height')`: absent and 0 are falsy (lines 52, 67). -/
def heightTruthy : Option Nat → Bool
  | some n => n != 0
  | none => false

/-- `fmt.get('fps', 30)` (line 64): absent defaults to 30, an explicit
`None` value stays `None`. -/
def fpsGet : Field → Option Int
  | .absent => some 30
  | .null => none
  | .val n => some n

/-- The condition `fps and fps > 30` (line 69): `None` and 0 are falsy. -/
def fpsAbove30 : Option Int → Bool
  | some f => decide (30 < f)
  | none => false

/-- `fps or 30` (lines 85, 93): `None` and 0 fall back to 30. -/
def fpsOr30 : Option Int → Int
  | some f => if f = 0 then 30 else f
  | none => 30

/-- `fmt.get('vcodec', d).split('.')[0]` (lines 65, 234): the part of the
codec string before the first dot. -/
def codecHead (v : Option String) (d : String) : String :=
  String.mk ((v.getD d).data.takeWhile (fun c => c ≠ '.'))

/-- The premium-codec test `vcodec in ['vp9', 'av01']` (lines 75, 240). -/
def isPremiumCodec (c : String) : Bool :=
  c == "vp9" || c == "av01"

/-- `f.get('vcodec') != 'none'` (lines 52, 56): absent keys compare
unequal to the string `'none'`, hence count as a video codec. -/
def hasVcodec (f : Fmt) : Bool := f.vcodec != some "none"

/-- `f.get('acodec') != 'none'` (lines 56, 108, 113). -/
def hasAcodec (f : Fmt) : Bool := f.acodec != some "none"

/-- The `video_formats` list comprehension (lines 51-52). -/
def videoFormats (fmts : List Fmt) : List Fmt :=
  fmts.filter (fun f => hasVcodec f && heightTruthy f.height)

/-- The `combined_formats` list comprehension (lines 55-56). -/
def combinedFormats (fmts : List Fmt) : List Fmt :=
  fmts.filter (fun f => hasVcodec f && hasAcodec f && heightTruthy f.height)

/-- `all_formats = video_formats + combined_formats` (line 60). -/
def videoPool (fmts : List Fmt) : List Fmt :=
  videoFormats fmts ++ combinedFormats fmts

/-- The quality string of lines 69-72: `"{height}p{fps}"` when
`fps and fps > 30`, else `"{height}p"`. -/
def qualityLabel (h : Nat) (fpsv : Option Int) : String :=
  if fpsAbove30 fpsv then toString h ++ "p" ++ toString (fpsv.getD 0)
  else toString h ++ "p"

/-- `fmt.get('tbr', 0)` (line 88): absent defaults to the number 0, but an
explicit `None` value is returned as `None`. -/
def tbrGet : Field → Option Int
  | .absent => some 0
  | .null => none
  | .val n => some n

/-- Python's `x > y` on two optional numbers: comparing `None` with a
number raises `TypeError` (the line 88 comparison is unguarded). -/
def pyGt : Option Int → Option Int → Except String Bool
  | some a, some b => .ok (decide (b < a))
  | _, _ => .error "TypeError: comparison with None"

/-- One value of the video `quality_dict` (lines 81-87 / 89-95). -/
structure VEntry where
  format : Fmt
  display : String
  height : Nat
  fps : Int
  codec : String
deriving DecidableEq

/-- Resolution of a format as the ranking reads it (`height`; the absent /
0 cases never reach a grouped entry because they are falsy). -/
def fmtHeight (f : Fmt) : Nat := f.height.getD 0

/-- The effective framerate stored with a grouped entry, `fps or 30`
(lines 85, 93). -/
def fmtEffFps (f : Fmt) : Int := fpsOr30 (fpsGet f.fps)

/-- The premium tier of a stream as both the ranker (line 75) and the
display augmentation (line 240) compute it. -/
def fmtPremium (f : Fmt) : Bool := isPremiumCodec (codecHead f.vcodec "")

/-- The grouping key lines 68-78 assign to a candidate stream: the quality
string suffixed with the codec tier. -/
def vGroupKey (f : Fmt) : String :=
  let q := qualityLabel (fmtHeight f) (fpsGet f.fps)
  if fmtPremium f then q ++ "_premium" else q ++ "_standard"

/-- The dictionary value built at lines 81-87 and 89-95, all of whose
fields are computed from the format dictionary of the current iteration. -/
def vEntryOf (f : Fmt) : VEntry :=
  { format := f, display := qualityLabel (fmtHeight f) (fpsGet f.fps),
    height := fmtHeight f, fps := fmtEffFps f, codec := codecHead f.vcodec "" }

/-- The tbr used for the within-group comparison, with a missing key read
as 0 (`fmt.get('tbr', 0)`); an explicit `None` also reads as 0 here, but a
`None`-tbr stream can only survive in a group in which it was never
compared, since comparing it raises. -/
def safeTbr (f : Fmt) : Int := (tbrGet f.tbr).getD 0

/-- Lookup in an insertion-ordered dictionary (Python `d[k]` / `k in d`). -/
def dlookup {α : Type} (d : List (String × α)) (k : String) : Option α :=
  (d.find? (fun p => p.1 == k)).map Prod.snd

/-- Assignment `d[k] = v` for a key already present: the entry keeps its
position, as in a Python dict. -/
def dset {α : Type} (d : List (String × α)) (k : String) (v : α) : List (String × α) :=
  d.map (fun p => if p.1 == k then (k, v) else p)

/-- The body of the `for fmt in all_formats` loop (lines 62-95): skip
falsy heights; on a fresh grouping key insert the entry at the end; on a
seen key compare `fmt.get('tbr', 0)` against the stored format's and
replace the entry when strictly greater. -/
def videoStep (d : List (String × VEntry)) (f : Fmt) :
    Except String (List (String × VEntry)) :=
  if heightTruthy f.height then
    match dlookup d (vGroupKey f) with
    | none => .ok (d ++ [(vGroupKey f, vEntryOf f)])
    | some cur =>
      match pyGt (tbrGet f.tbr) (tbrGet cur.format.tbr) with
      | .error e => .error e
      | .ok true => .ok (dset d (vGroupKey f) (vEntryOf f))
      | .ok false => .ok d
  else .ok d

/-- The whole grouping loop over `all_formats`. -/
def videoGroup (d : List (String × VEntry)) : List Fmt →
    Except String (List (String × VEntry))
  | [] => .ok d
  | f :: fs =>
    match videoStep d f with
    | .error e => .error e
    | .ok d' => videoGroup d' fs

/-- Sort relation of line 99: `key=lambda x: (x['height'], x['fps'])` with
`reverse=True` — `a` may precede `b` iff `a`'s key is lexicographically ≥. -/
def vKeyGE (a b : VEntry) : Prop :=
  b.height < a.height ∨ (a.height = b.height ∧ b.fps ≤ a.fps)

instance : DecidableRel vKeyGE := fun a b => by
  unfold vKeyGE; infer_instance

instance : IsTotal VEntry vKeyGE := by
  constructor
  intro a b
  unfold vKeyGE
  rcases Nat.lt_trichotomy a.height b.height with h | h | h
  · exact Or.inr (Or.inl h)
  · rcases Int.le_total a.fps b.fps with hf | hf
    · exact Or.inr (Or.inr ⟨h.symm, hf⟩)
    · exact Or.inl (Or.inr ⟨h, hf⟩)
  · exact Or.inl (Or.inl h)

instance : IsTrans VEntry vKeyGE := by
  constructor
  intro a b c hab hbc
  unfold vKeyGE at *
  rcases hab with h1 | ⟨h1, hf1⟩
  · rcases hbc with h2 | ⟨h2, _⟩
    · exact Or.inl (h2.trans h1)
    · exact Or.inl (h2 ▸ h1)
  · rcases hbc with h2 | ⟨h2, hf2⟩
    · exact Or.inl (h1 ▸ h2)
    · exact Or.inr ⟨h1.trans h2, hf2.trans hf1⟩

/-- Video branch of `get_available_qualities` (lines 49-103): group, sort
descending by `(height, fps)` (Python's sort is stable), and return the
`(display, format)` pairs. -/
def videoQualities (fmts : List Fmt) : Except String (List (String × Fmt)) :=
  match videoGroup [] (videoPool fmts) with
  | .error e => .error e
  | .ok d =>
    let sorted := List.insertionSort vKeyGE (d.map Prod.snd)
    .ok (sorted.map (fun q => (q.display, q.format)))

/-- `safe_abr` (lines 119-123): `fmt.get('abr') or 0`, then kept only when
it is a number and positive; everything else becomes 0.  The same
computation normalises the stored entry at lines 134-135. -/
def safeAbr : AVal → Int
  | .num n => if 0 < n then n else 0
  | _ => 0

/-- The sort key of line 142: `isinstance` is tested on the raw `abr`
value, so any number (even a non-positive one) is its own key and
everything else is 0. -/
def audioSortKey : AVal → Int
  | .num n => n
  | _ => 0

/-- Python `str.upper()` character by character (`ext.upper()`, line 126). -/
def upperStr (s : String) : String := String.mk (s.data.map Char.toUpper)

/-- The audio quality label of lines 118-128, which is also the group key. -/
def audioLabel (f : Fmt) : String :=
  let e := upperStr (f.ext.getD "unknown")
  let ac := f.acodec.getD "unknown"
  let sa := safeAbr f.abr
  if 0 < sa then e ++ " - " ++ toString sa ++ "kbps (" ++ ac ++ ")"
  else e ++ " (" ++ ac ++ ")"

/-- `audio_formats` selection with fallback (lines 107-113). -/
def audioFormatsOf (fmts : List Fmt) : List Fmt :=
  if (fmts.filter (fun f => hasAcodec f && f.vcodec == some "none")).isEmpty then
    fmts.filter (fun f => hasAcodec f)
  else fmts.filter (fun f => hasAcodec f && f.vcodec == some "none")

/-- The body of the `for fmt in audio_formats` loop (lines 117-138). -/
def audioStep (d : List (String × Fmt)) (f : Fmt) : List (String × Fmt) :=
  match dlookup d (audioLabel f) with
  | none => d ++ [(audioLabel f, f)]
  | some cur =>
    if safeAbr cur.abr < safeAbr f.abr then dset d (audioLabel f) f else d

/-- Sort relation of lines 141-143 on `quality_dict.items()`. -/
def aKeyGE (p q : String × Fmt) : Prop :=
  audioSortKey q.2.abr ≤ audioSortKey p.2.abr

instance : DecidableRel aKeyGE := fun p q => by
  unfold aKeyGE; infer_instance

instance : IsTotal (String × Fmt) aKeyGE := by
  constructor
  intro a b
  exact (Int.le_total (audioSortKey b.2.abr) (audioSortKey a.2.abr)).imp id id

instance : IsTrans (String × Fmt) aKeyGE := by
  constructor
  intro a b c hab hbc
  exact le_trans hbc hab

/-- Audio branch of `get_available_qualities` (lines 105-143). -/
def audioQualities (fmts : List Fmt) : List (String × Fmt) :=
  List.insertionSort aKeyGE ((audioFormatsOf fmts).foldl audioStep [])

/-- `get_available_qualities(info, download_type)` (lines 42-145).  `info`
is `none` when the catalog record is falsy or has no `'formats'` key
(line 44); otherwise it is the `'formats'` list. -/
def get_available_qualities (info : Option (List Fmt)) (download_type : Int) :
    Except String (List (String × Fmt)) :=
  match info with
  | none => .ok []
  | some fmts =>
    if download_type = 1 ∨ download_type = 3 then videoQualities fmts
    else if download_type = 2 ∨ download_type = 4 then .ok (audioQualities fmts)
    else .ok []

/-- `fmt.get('fps')` as read by `display_qualities` (line 235): absent and
`None` both give `None`. -/
def fpsRaw : Field → Option Int
  | .absent => none
  | .null => none
  | .val n => some n

/-- `fmt.get('filesize') or fmt.get('filesize_approx')` (line 244): the
first truthy value, where absent and 0 are falsy. -/
def filesizeVal (f : Fmt) : Option Nat :=
  match f.filesize with
  | some n => if n = 0 then f.filesize_approx else some n
  | none => f.filesize_approx

/-- The `f"{size_mb:.1f}"` rendering of `filesize / (1024*1024)` at lines
246-247, computed on the exact rational with round-half-to-even (the
source computes it on a binary float, which agrees on all inputs whose
tenths digit is not an exact tie after float rounding). -/
def sizeMB1f (n : Nat) : String :=
  let q := n * 10
  let d := 1024 * 1024
  let t := q / d
  let r := q % d
  let rounded :=
    if d < 2 * r then t + 1
    else if 2 * r < d then t
    else if t % 2 = 0 then t else t + 1
  toString (rounded / 10) ++ "." ++ toString (rounded % 10)

/-- The user-facing label `display_qualities` prints for one video option
(lines 232-251): the ranked quality string, plus ` {fps}fps` when the
backing stream's fps exceeds 30, plus ` (Premium)` for vp9/av01, plus an
approximate size when a filesize is known. -/
def displayVideoLabel (quality : String) (f : Fmt) : String :=
  let codecInfo := codecHead f.vcodec "unknown"
  let fpsInfo := match fpsRaw f.fps with
    | some n => if 30 < n then " " ++ toString n ++ "fps" else ""
    | none => ""
  let qi := quality ++ fpsInfo
  let qi := if isPremiumCodec codecInfo then qi ++ " (Premium)" else qi
  match filesizeVal f with
  | some n => if n = 0 then qi else qi ++ " (~" ++ sizeMB1f n ++ "MB)"
  | none => qi

/-- The full list of video labels printed by `display_qualities` for a
ranked options list, in order. -/
def presentedVideoLabels (qs : List (String × Fmt)) : List String :=
  qs.map (fun p => displayVideoLabel p.1 p.2)

/-- `extract_height_from_format_id` (lines 195-203): the `try` body always
returns the constant string `"1080"` and cannot raise, so the `except`
branch returning `"720"` is dead. -/
def extract_height_from_format_id (format_id : String) : String :=
  "1080"

/-- The `format` selector built by `download_video` for the video-with-
audio modes 1 and 3 (lines 156 and 172, which are identical). -/
def videoFormatSelector (format_id : String) : String :=
  format_id ++ "+bestaudio[ext=m4a]/best[height<=" ++
    extract_height_from_format_id format_id ++ "]"

/-- The `format` selector built by `download_video` for the audio modes 2
and 4 (lines 162 and 178). -/
def audioFormatSelector (format_id : String) : String :=
  format_id ++ "/bestaudio"

/-- Does `needle` occur as a contiguous substring of `hay` (Python's `in`
operator on strings, over the character sequence)? -/
def strContains (needle : List Char) : List Char → Bool
  | [] => needle.isEmpty
  | c :: rest => needle.isPrefixOf (c :: rest) || strContains needle rest

/-- The `playlist_indicators` list of line 207. -/
def playlist_indicators : List String :=
  ["playlist", "list=", "album", "channel"]

/-- Python `url.lower()` character by character, as a character list. -/
def lowerChars (url : String) : List Char := url.data.map Char.toLower

/-- `is_playlist(url)` (lines 205-208): any of the indicators occurs in
`url.lower()`. -/
def is_playlist (url : String) : Bool :=
  playlist_indicators.any (fun ind => strContains ind.data (lowerChars url))

/-- Descending order on ranked video options by the backing stream's
(resolution, effective framerate), resolution primary. -/
def vRankGE (p q : String × Fmt) : Prop :=
  fmtHeight q.2 < fmtHeight p.2 ∨
    (fmtHeight p.2 = fmtHeight q.2 ∧ fmtEffFps q.2 ≤ fmtEffFps p.2)

/-! ### Association-list dictionary lemmas -/

theorem dlookup_eq_none {α : Type} {d : List (String × α)} {k : String} :
    dlookup d k = none ↔ ∀ p ∈ d, p.1 ≠ k := by
  unfold dlookup
  rw [Option.map_eq_none', List.find?_eq_none]
  constructor
  · intro h p hp
    have := h p hp
    simpa using this
  · intro h p hp
    simpa using h p hp

theorem dlookup_mem {α : Type} {d : List (String × α)} {k : String} {v : α}
    (h : dlookup d k = some v) : (k, v) ∈ d := by
  unfold dlookup at h
  rw [Option.map_eq_some'] at h
  obtain ⟨p, hp, hv⟩ := h
  have hk : p.1 = k := by simpa using List.find?_some hp
  have hm : p ∈ d := List.mem_of_find?_eq_some hp
  have : (k, v) = p := by
    cases p
    simp_all
  rwa [this]

theorem keys_dset {α : Type} (d : List (String × α)) (k : String) (v : α) :
    (dset d k v).map Prod.fst = d.map Prod.fst := by
  unfold dset
  rw [List.map_map]
  apply List.map_congr_left
  intro p _
  by_cases hp : p.1 = k <;> simp [hp]

theorem mem_dset {α : Type} {d : List (String × α)} {k : String} {v : α}
    {q : String × α} (h : q ∈ dset d k v) :
    q = (k, v) ∨ (q ∈ d ∧ q.1 ≠ k) := by
  unfold dset at h
  rw [List.mem_map] at h
  obtain ⟨p, hp, hq⟩ := h
  by_cases hk : p.1 = k
  · left
    simp [hk] at hq
    exact hq.symm
  · right
    simp [hk] at hq
    exact ⟨hq ▸ hp, hq ▸ hk⟩

theorem mem_dset_of_ne {α : Type} {d : List (String × α)} {k : String} {v : α}
    {p : String × α} (hp : p ∈ d) (hk : p.1 ≠ k) : p ∈ dset d k v := by
  unfold dset
  rw [List.mem_map]
  exact ⟨p, hp, by simp [hk]⟩

theorem mem_dset_self {α : Type} {d : List (String × α)} {k : String} {v : α}
    {p : String × α} (hp : p ∈ d) (hk : p.1 = k) : (k, v) ∈ dset d k v := by
  unfold dset
  rw [List.mem_map]
  exact ⟨p, hp, by simp [hk]⟩

theorem nodup_keys_eq {α : Type} {d : List (String × α)}
    (h : (d.map Prod.fst).Nodup) {p q : String × α}
    (hp : p ∈ d) (hq : q ∈ d) (hk : p.1 = q.1) : p = q := by
  induction d with
  | nil => cases hp
  | cons a tl ih =>
    rw [List.map_cons, List.nodup_cons] at h
    rcases List.mem_cons.mp hp with rfl | hp' <;>
      rcases List.mem_cons.mp hq with h2 | hq'
    · exact h2.symm
    · exact absurd (hk ▸ List.mem_map_of_mem Prod.fst hq') h.1
    · exact absurd (hk ▸ List.mem_map_of_mem Prod.fst hp') (h2 ▸ h.1)
    · exact ih h.2 hp' hq'

/-! ### Invariant of the video grouping loop -/

/-- What holds of one `quality_dict` entry after the loop has consumed the
stream list `processed`: the key is the grouping key of the retained
format, the entry's fields are those computed from the retained format,
the retained format was consumed, and its tbr is maximal (missing read as
0) among the consumed candidates of this group. -/
def entryOK (processed : List Fmt) (p : String × VEntry) : Prop :=
  p.1 = vGroupKey p.2.format ∧
  p.2 = vEntryOf p.2.format ∧
  p.2.format ∈ processed ∧
  ∀ f ∈ processed, heightTruthy f.height = true → vGroupKey f = p.1 →
    safeTbr f ≤ safeTbr p.2.format

/-- What holds of the whole `quality_dict`: distinct keys, every entry
well-formed, and every consumed candidate's group represented. -/
def dictOK (processed : List Fmt) (d : List (String × VEntry)) : Prop :=
  (d.map Prod.fst).Nodup ∧
  (∀ p ∈ d, entryOK processed p) ∧
  ∀ f ∈ processed, heightTruthy f.height = true →
    ∃ p ∈ d, p.1 = vGroupKey f

theorem pyGt_ok {a b : Option Int} {r : Bool} (h : pyGt a b = .ok r) :
    ∃ x y, a = some x ∧ b = some y ∧ r = decide (y < x) := by
  match a, b with
  | some x, some y =>
    refine ⟨x, y, rfl, rfl, ?_⟩
    unfold pyGt at h
    exact (Except.ok.injEq _ _ ▸ h).symm
  | some _, none => exact absurd h (by unfold pyGt; simp)
  | none, _ => exact absurd h (by unfold pyGt; simp)

theorem entryOK_grow {processed : List Fmt} {f : Fmt} {p : String × VEntry}
    (h : entryOK processed p)
    (hf : heightTruthy f.height = true → vGroupKey f = p.1 →
      safeTbr f ≤ safeTbr p.2.format) :
    entryOK (processed ++ [f]) p := by
  obtain ⟨h1, h2, h3, h4⟩ := h
  refine ⟨h1, h2, List.mem_append_left _ h3, ?_⟩
  intro g hg hgt hgk
  rcases List.mem_append.mp hg with hg' | hg'
  · exact h4 g hg' hgt hgk
  · have hgf := List.mem_singleton.mp hg'
    subst hgf
    exact hf hgt hgk

theorem videoStep_ok {processed : List Fmt} {d d' : List (String × VEntry)}
    {f : Fmt} (hd : dictOK processed d) (h : videoStep d f = .ok d') :
    dictOK (processed ++ [f]) d' := by
  obtain ⟨hnd, hent, hcov⟩ := hd
  unfold videoStep at h
  split at h
  next ht =>
    split at h
    next x hlu =>
      cases h
      have hfresh : ∀ p ∈ d, p.1 ≠ vGroupKey f := dlookup_eq_none.mp hlu
      refine ⟨?_, ?_, ?_⟩
      · rw [List.map_append, List.nodup_append]
        refine ⟨hnd, List.nodup_singleton _, ?_⟩
        intro k hk hk'
        simp only [List.map_cons, List.map_nil, List.mem_singleton] at hk'
        rw [List.mem_map] at hk
        obtain ⟨p, hp, hpk⟩ := hk
        exact hfresh p hp (hpk.trans hk')
      · intro p hp
        rcases List.mem_append.mp hp with hp' | hp'
        · exact entryOK_grow (hent p hp')
            (fun _ hgk => absurd hgk.symm (hfresh p hp'))
        · have hpe := List.mem_singleton.mp hp'
          subst hpe
          refine ⟨rfl, rfl,
            List.mem_append_right _ (List.mem_singleton_self f), ?_⟩
          intro g hg hgt hgk
          rcases List.mem_append.mp hg with hg' | hg'
          · obtain ⟨q, hq, hqk⟩ := hcov g hg' hgt
            exact absurd (hqk.trans hgk) (hfresh q hq)
          · have hgf := List.mem_singleton.mp hg'
            subst hgf
            exact le_refl _
      · intro g hg hgt
        rcases List.mem_append.mp hg with hg' | hg'
        · obtain ⟨q, hq, hqk⟩ := hcov g hg' hgt
          exact ⟨q, List.mem_append_left _ hq, hqk⟩
        · have hgf := List.mem_singleton.mp hg'
          subst hgf
          exact ⟨(vGroupKey g, vEntryOf g),
            List.mem_append_right _ (List.mem_singleton_self _), rfl⟩
    next x cur hlu =>
      have hcur : (vGroupKey f, cur) ∈ d := dlookup_mem hlu
      have hcurOK := hent _ hcur
      split at h
      next x2 e hpg => cases h
      next x2 hpg =>
        cases h
        obtain ⟨xv, yv, hx, hy, hr⟩ := pyGt_ok hpg
        have hsx : safeTbr f = xv := by unfold safeTbr; rw [hx]; rfl
        have hsy : safeTbr cur.format = yv := by unfold safeTbr; rw [hy]; rfl
        have hyx : yv < xv := of_decide_eq_true hr.symm
        refine ⟨by rw [keys_dset]; exact hnd, ?_, ?_⟩
        · intro p hp
          rcases mem_dset hp with hpe | ⟨hp', hpne⟩
          · subst hpe
            refine ⟨rfl, rfl,
              List.mem_append_right _ (List.mem_singleton_self f), ?_⟩
            intro g hg hgt hgk
            rcases List.mem_append.mp hg with hg' | hg'
            · have hle : safeTbr g ≤ safeTbr cur.format :=
                hcurOK.2.2.2 g hg' hgt hgk
              show safeTbr g ≤ safeTbr f
              rw [hsx]
              rw [hsy] at hle
              exact le_trans hle (Int.le_of_lt hyx)
            · have hgf := List.mem_singleton.mp hg'
              subst hgf
              exact le_refl _
          · refine entryOK_grow (hent p hp') ?_
            intro _ hgk
            exact absurd hgk.symm hpne
        · intro g hg hgt
          rcases List.mem_append.mp hg with hg' | hg'
          · obtain ⟨q, hq, hqk⟩ := hcov g hg' hgt
            by_cases hqky : q.1 = vGroupKey f
            · exact ⟨(vGroupKey f, vEntryOf f), mem_dset_self hq hqky,
                hqky ▸ hqk⟩
            · exact ⟨q, mem_dset_of_ne hq hqky, hqk⟩
          · have hgf := List.mem_singleton.mp hg'
            subst hgf
            exact ⟨(vGroupKey g, vEntryOf g), mem_dset_self hcur rfl, rfl⟩
      next x2 hpg =>
        cases h
        obtain ⟨xv, yv, hx, hy, hr⟩ := pyGt_ok hpg
        have hsx : safeTbr f = xv := by unfold safeTbr; rw [hx]; rfl
        have hsy : safeTbr cur.format = yv := by unfold safeTbr; rw [hy]; rfl
        have hxy : xv ≤ yv := Int.not_lt.mp (of_decide_eq_false hr.symm)
        refine ⟨hnd, ?_, ?_⟩
        · intro p hp
          refine entryOK_grow (hent p hp) ?_
          intro _ hgk
          have hpeq : p = (vGroupKey f, cur) :=
            nodup_keys_eq hnd hp hcur hgk.symm
          show safeTbr f ≤ safeTbr p.2.format
          rw [hpeq]
          show safeTbr f ≤ safeTbr cur.format
          rw [hsx, hsy]
          exact hxy
        · intro g hg hgt
          rcases List.mem_append.mp hg with hg' | hg'
          · exact hcov g hg' hgt
          · have hgf := List.mem_singleton.mp hg'
            subst hgf
            exact ⟨(vGroupKey g, cur), hcur, rfl⟩
  next ht =>
    cases h
    refine ⟨hnd, ?_, ?_⟩
    · intro p hp
      exact entryOK_grow (hent p hp) (fun hft _ => absurd hft ht)
    · intro g hg hgt
      rcases List.mem_append.mp hg with hg' | hg'
      · exact hcov g hg' hgt
      · have hgf := List.mem_singleton.mp hg'
        subst hgf
        exact absurd hgt ht

theorem videoGroup_ok {fs : List Fmt} : ∀ {processed : List Fmt}
    {d d' : List (String × VEntry)}, dictOK processed d →
    videoGroup d fs = .ok d' → dictOK (processed ++ fs) d' := by
  induction fs with
  | nil =>
    intro processed d d' hd h
    unfold videoGroup at h
    cases h
    simpa using hd
  | cons f fs ih =>
    intro processed d d' hd h
    unfold videoGroup at h
    split at h
    next e hstep => cases h
    next d1 hstep =>
      have := ih (videoStep_ok hd hstep) h
      rwa [List.append_assoc, List.singleton_append] at this

theorem dictOK_nil : dictOK [] [] :=
  ⟨List.nodup_nil, fun p hp => absurd hp (List.not_mem_nil p),
    fun f hf _ => absurd hf (List.not_mem_nil f)⟩

theorem videoQualities_ok {fmts : List Fmt} {qs : List (String × Fmt)}
    (h : videoQualities fmts = .ok qs) :
    ∃ d, dictOK (videoPool fmts) d ∧
      qs = (List.insertionSort vKeyGE (d.map Prod.snd)).map
        (fun q => (q.display, q.format)) := by
  unfold videoQualities at h
  split at h
  next e hg => cases h
  next d hg =>
    cases h
    exact ⟨d, by simpa using videoGroup_ok dictOK_nil hg, rfl⟩

theorem entry_height {e : VEntry} (he : e = vEntryOf e.format) :
    e.height = fmtHeight e.format := by rw [he]; rfl

theorem entry_fps {e : VEntry} (he : e = vEntryOf e.format) :
    e.fps = fmtEffFps e.format := by rw [he]; rfl

theorem entry_display {e : VEntry} (he : e = vEntryOf e.format) :
    e.display = qualityLabel (fmtHeight e.format) (fpsGet e.format.fps) := by
  rw [he]; rfl

theorem key_factor (f : Fmt) :
    qualityLabel (fmtHeight f) (fpsGet f.fps) ++
      (if fmtPremium f then "_premium" else "_standard") = vGroupKey f := by
  unfold vGroupKey
  cases hfp : fmtPremium f <;> simp [hfp]

theorem pool_truthy {fmts : List Fmt} {f : Fmt} (h : f ∈ videoPool fmts) :
    heightTruthy f.height = true := by
  unfold videoPool videoFormats combinedFormats at h
  rcases List.mem_append.mp h with h' | h' <;>
    [have hb := (List.mem_filter.mp h').2; have hb := (List.mem_filter.mp h').2] <;>
    simp only [Bool.and_eq_true] at hb
  · exact hb.2
  · exact hb.2

/-- Everything the claims need to know about the video branch, derived
from the grouping invariant and the stable sort: the output is ordered by
descending (resolution, effective fps); option labels tagged with the
backing stream's tier are distinct; grouping keys of the retained streams
are distinct; every candidate's group is represented; each retained
stream is a candidate maximal by tbr within its group. -/
theorem videoQualities_spec {fmts : List Fmt} {qs : List (String × Fmt)}
    (h : videoQualities fmts = .ok qs) :
    List.Pairwise vRankGE qs ∧
    (qs.map (fun p => (p.1, fmtPremium p.2))).Nodup ∧
    (qs.map (fun p => vGroupKey p.2)).Nodup ∧
    (∀ f ∈ videoPool fmts, ∃ p ∈ qs, vGroupKey p.2 = vGroupKey f) ∧
    (∀ p ∈ qs, p.2 ∈ videoPool fmts ∧
      ∀ f ∈ videoPool fmts, vGroupKey f = vGroupKey p.2 →
        safeTbr f ≤ safeTbr p.2) := by
  obtain ⟨d, ⟨hnd, hent, hcov⟩, rfl⟩ := videoQualities_ok h
  have hperm := List.perm_insertionSort vKeyGE (d.map Prod.snd)
  have hmem : ∀ e ∈ List.insertionSort vKeyGE (d.map Prod.snd),
      ∃ k, (k, e) ∈ d := by
    intro e he
    have := hperm.mem_iff.mp he
    rw [List.mem_map] at this
    obtain ⟨⟨k, v⟩, hp, hpe⟩ := this
    cases hpe
    exact ⟨k, hp⟩
  have hkeysd : (d.map (fun p => vGroupKey p.2.format)).Nodup := by
    have heq : d.map (fun p => vGroupKey p.2.format) = d.map Prod.fst :=
      List.map_congr_left (fun p hp => ((hent p hp).1).symm)
    rw [heq]
    exact hnd
  have hkeySorted : ((List.insertionSort vKeyGE (d.map Prod.snd)).map
      (fun e => vGroupKey e.format)).Nodup := by
    refine ((hperm.map (fun e => vGroupKey e.format)).nodup_iff).mpr ?_
    rw [List.map_map]
    exact hkeysd
  refine ⟨?_, ?_, ?_, ?_, ?_⟩
  · rw [List.pairwise_map]
    refine (List.sorted_insertionSort vKeyGE (d.map Prod.snd)).imp_of_mem ?_
    intro a b ha hb hr
    obtain ⟨ka, hka⟩ := hmem a ha
    obtain ⟨kb, hkb⟩ := hmem b hb
    have ha2 := (hent _ hka).2.1
    have hb2 := (hent _ hkb).2.1
    unfold vKeyGE at hr
    unfold vRankGE
    rw [entry_height ha2, entry_fps ha2, entry_height hb2, entry_fps hb2] at hr
    exact hr
  · rw [List.map_map]
    refine List.Nodup.of_map
      (fun q : String × Bool =>
        q.1 ++ (if q.2 then "_premium" else "_standard")) ?_
    rw [List.map_map]
    have heq : ((List.insertionSort vKeyGE (d.map Prod.snd)).map
        ((fun q : String × Bool =>
          q.1 ++ (if q.2 then "_premium" else "_standard")) ∘
          ((fun p : String × Fmt => (p.1, fmtPremium p.2)) ∘
            fun q : VEntry => (q.display, q.format)))) =
        (List.insertionSort vKeyGE (d.map Prod.snd)).map
          (fun e => vGroupKey e.format) := by
      refine List.map_congr_left ?_
      intro e he
      obtain ⟨k, hk⟩ := hmem e he
      have he2 := (hent _ hk).2.1
      show e.display ++ (if fmtPremium e.format then "_premium"
        else "_standard") = vGroupKey e.format
      rw [entry_display he2]
      exact key_factor e.format
    rw [heq]
    exact hkeySorted
  · rw [List.map_map]
    exact hkeySorted
  · intro f hf
    obtain ⟨p, hp, hkey⟩ := hcov f hf (pool_truthy hf)
    refine ⟨(p.2.display, p.2.format), ?_, ?_⟩
    · exact List.mem_map_of_mem _
        (hperm.mem_iff.mpr (List.mem_map_of_mem Prod.snd hp))
    · show vGroupKey p.2.format = vGroupKey f
      rw [← (hent p hp).1, hkey]
  · intro p hp
    rw [List.mem_map] at hp
    obtain ⟨e, he, hpe⟩ := hp
    obtain ⟨k, hk⟩ := hmem e he
    have hOK := hent _ hk
    subst hpe
    refine ⟨hOK.2.2.1, ?_⟩
    intro f hf hgk
    have := hOK.2.2.2 f hf (pool_truthy hf)
      (by rw [hgk]; exact (hOK.1).symm)
    exact this

theorem audioStep_keys {d : List (String × Fmt)} {f : Fmt}
    (h : (d.map Prod.fst).Nodup) : ((audioStep d f).map Prod.fst).Nodup := by
  unfold audioStep
  split
  next hlu =>
    rw [List.map_append, List.nodup_append]
    refine ⟨h, List.nodup_singleton _, ?_⟩
    intro k hk hk'
    simp only [List.map_cons, List.map_nil, List.mem_singleton] at hk'
    rw [List.mem_map] at hk
    obtain ⟨p, hp, hpk⟩ := hk
    exact dlookup_eq_none.mp hlu p hp (hpk.trans hk')
  next cur hlu =>
    split
    · rw [keys_dset]
      exact h
    · exact h

theorem audioFold_keys : ∀ (fs : List Fmt) (d : List (String × Fmt)),
    (d.map Prod.fst).Nodup → ((fs.foldl audioStep d).map Prod.fst).Nodup
  | [], _, h => h
  | f :: fs, d, h => audioFold_keys fs (audioStep d f) (audioStep_keys h)

theorem audioQualities_labels_nodup (fmts : List Fmt) :
    ((audioQualities fmts).map Prod.fst).Nodup := by
  unfold audioQualities
  have hperm := List.perm_insertionSort aKeyGE
    ((audioFormatsOf fmts).foldl audioStep [])
  exact ((hperm.map Prod.fst).nodup_iff).mpr
    (audioFold_keys (audioFormatsOf fmts) [] List.nodup_nil)

theorem audioQualities_sorted (fmts : List Fmt) :
    List.Pairwise aKeyGE (audioQualities fmts) :=
  List.sorted_insertionSort aKeyGE _

/-! ### Concrete stream descriptors used by the claims -/

/-- A standard-codec 1080p stream (no other fields set). -/
def c1a : Fmt := { vcodec := some "avc1", height := some 1080 }

/-- A premium-codec 1080p stream. -/
def c1b : Fmt := { vcodec := some "vp9", height := some 1080 }

/-- A 1080p stream whose tbr is the number 100. -/
def c2a : Fmt := { vcodec := some "avc1", height := some 1080, tbr := .val 100 }

/-- A 1080p stream of the same group whose tbr key is present but `None`. -/
def c2b : Fmt := { vcodec := some "avc1", height := some 1080, tbr := .null }

/-- An audio-only stream whose abr is `None`. -/
def c2x : Fmt :=
  { format_id := "x"
    vcodec := some "none"
    acodec := some "aac"
    ext := some "m4a"
    abr := .null }

/-- An audio-only stream with abr 64. -/
def c2y : Fmt :=
  { format_id := "y"
    vcodec := some "none"
    acodec := some "aac"
    ext := some "m4a"
    abr := .num 64 }

/-- Scenario A of the spec: avc1×1080, vp9×1080, avc1×720, each with
`abr: None`. -/
def scenarioA : List Fmt :=
  [{ vcodec := some "avc1", height := some 1080, abr := .null },
   { vcodec := some "vp9", height := some 1080, abr := .null },
   { vcodec := some "avc1", height := some 720, abr := .null }]

/-- A 720p60 standard-tier stream. -/
def c6a : Fmt :=
  { format_id := "a"
    vcodec := some "avc1"
    height := some 720
    fps := .val 60 }

/-- A 720p (default framerate) standard-tier stream. -/
def c6b : Fmt := { format_id := "b", vcodec := some "avc1", height := some 720 }

/-- A combined audio+video stream, the only stream of its catalog. -/
def c8c : Fmt :=
  { format_id := "c"
    vcodec := some "avc1"
    acodec := some "mp4a"
    height := some 720 }

/-- A video-only stream. -/
def c8v : Fmt := { format_id := "v", vcodec := some "avc1", height := some 360 }

/-- An audio-only stream. -/
def c8m : Fmt := { format_id := "m", vcodec := some "none", acodec := some "opus" }

/-! ### The claims -/

/-- C2: the claim says the ranker never raises on a missing/None/non-finite
bitrate in both modes, treating it as zero. The audio branch indeed does
(second conjunct: an abr of `None` ranks below abr 64 without raising),
but the video branch raises a `TypeError` when a stream whose `tbr` key
holds `None` collides with an already-grouped stream (first conjunct),
because line 88 compares `fmt.get('tbr', 0)`, which is `None` there, with
a number. -/
theorem C2_theorem :
    get_available_qualities (some [c2a, c2b]) 1 =
      .error "TypeError: comparison with None" ∧
    get_available_qualities (some [c2x, c2y]) 2 =
      .ok [("M4A - 64kbps (aac)", c2y), ("M4A (aac)", c2x)] :=
  ⟨rfl, rfl⟩

/-- C3 counterexample: on scenario A the options presented to the user
are `["1080p", "1080p (Premium)", "720p"]`, which differs from the claimed
order `["1080p (Premium)", "1080p", "720p"]`: the sort key of line 99 is
only (height, fps), the sort is stable, and the standard-tier stream
appears first in the input. -/
theorem C3_counterexample :
    (get_available_qualities (some scenarioA) 1).map presentedVideoLabels =
      .ok ["1080p", "1080p (Premium)", "720p"] ∧
    (["1080p", "1080p (Premium)", "720p"] : List String) ≠
      ["1080p (Premium)", "1080p", "720p"] :=
  ⟨rfl, by decide⟩

/-- C3 (amended): on scenario A the options presented to the user are
exactly, in order, `["1080p", "1080p (Premium)", "720p"]`. -/
theorem C3_theorem :
    (get_available_qualities (some scenarioA) 1).map presentedVideoLabels =
      .ok ["1080p", "1080p (Premium)", "720p"] :=
  rfl

/-- C4: the resolution ceiling of the fallback selector in the video
modes is the fixed constant "1080" for every chosen format identifier —
it never depends on the identifier (or the chosen stream's resolution),
and the whole selector is the identifier followed by a constant tail. -/
theorem C4_theorem (fid1 fid2 : String) :
    extract_height_from_format_id fid1 = extract_height_from_format_id fid2 ∧
    extract_height_from_format_id fid1 = "1080" ∧
    videoFormatSelector fid1 =
      fid1 ++ "+bestaudio[ext=m4a]/best[height<=1080]" := by
  refine ⟨rfl, rfl, ?_⟩
  unfold videoFormatSelector extract_height_from_format_id
  rw [String.append_assoc, String.append_assoc]
  exact congrArg (fun s => fid1 ++ s) rfl

/-- C7 counterexample: a URL containing "album" but neither "list=" nor
"playlist" is classified as a playlist, so the claimed iff with only the
two indicators is false (line 207 also lists "album" and "channel"). -/
theorem C7_counterexample :
    is_playlist "https://example.com/album/123" = true ∧
    strContains "list=".data (lowerChars "https://example.com/album/123")
      = false ∧
    strContains "playlist".data (lowerChars "https://example.com/album/123")
      = false := by
  refine ⟨rfl, rfl, rfl⟩

/-- C7 (amended): `is_playlist` returns true exactly when the lowercased
URL contains one of the four substrings "playlist", "list=", "album",
"channel"; no other part of the URL matters. -/
theorem C7_theorem (url : String) :
    is_playlist url =
      (strContains "playlist".data (lowerChars url) ||
       strContains "list=".data (lowerChars url) ||
       strContains "album".data (lowerChars url) ||
       strContains "channel".data (lowerChars url)) := by
  unfold is_playlist playlist_indicators
  simp only [List.any_cons, List.any_nil, Bool.or_false, Bool.or_assoc]

/-- Two successive ranker calls on the same catalog value (the body of
`get_available_qualities`, lines 42-145, performs no assignment to `info`
or to its format dictionaries, so the second call receives the catalog
unchanged). -/
def rankTwice (info : Option (List Fmt)) (dt : Int) :
    Except String (List (String × Fmt)) × Except String (List (String × Fmt)) :=
  (get_available_qualities info dt, get_available_qualities info dt)

/-- C9: ranking is pure — the two successive calls of the ranker on the
same catalog and mode yield identical outputs (the embedding is a pure
function of the catalog because the source mutates nothing). -/
theorem C9_theorem (info : Option (List Fmt)) (dt : Int) :
    (rankTwice info dt).1 = (rankTwice info dt).2 :=
  rfl

/-- C10: for any download_type outside the four defined modes the ranker
returns the empty list without raising, for every catalog. -/
theorem C10_theorem (info : Option (List Fmt)) (dt : Int)
    (h1 : dt ≠ 1) (h2 : dt ≠ 2) (h3 : dt ≠ 3) (h4 : dt ≠ 4) :
    get_available_qualities info dt = .ok [] := by
  unfold get_available_qualities
  cases info with
  | none => rfl
  | some fmts =>
    have hA : ¬(dt = 1 ∨ dt = 3) := by
      rintro (h | h)
      exacts [h1 h, h3 h]
    have hB : ¬(dt = 2 ∨ dt = 4) := by
      rintro (h | h)
      exacts [h2 h, h4 h]
    show (if dt = 1 ∨ dt = 3 then videoQualities fmts
      else if dt = 2 ∨ dt = 4 then Except.ok (audioQualities fmts)
      else Except.ok []) = Except.ok []
    rw [if_neg hA, if_neg hB]

/-- C10 witness: mode 5 on a one-stream catalog returns the empty list. -/
theorem C10_witness : get_available_qualities (some [c8c]) 5 = .ok [] :=
  C10_theorem (some [c8c]) 5 (by decide) (by decide) (by decide) (by decide)

/-- C1 counterexample: with a standard and a premium stream at the same
resolution, the ranker returns two options carrying the same display
label "1080p" — labels are not pairwise distinct. -/
theorem C1_counterexample :
    get_available_qualities (some [c1a, c1b]) 1 =
      .ok [("1080p", c1a), ("1080p", c1b)] ∧
    ¬ (([("1080p", c1a), ("1080p", c1b)] : List (String × Fmt)).map
        Prod.fst).Nodup :=
  ⟨rfl, by decide⟩

/-- C1 (amended): in the audio modes the returned labels are pairwise
distinct; in every mode the pairs of label and codec tier of the backing
stream are pairwise distinct, so a label can repeat only across the
premium/standard tiers (where the display augmentation adds the
distinguishing "(Premium)" marker). -/
theorem C1_theorem (fmts : List Fmt) (dt : Int) (qs : List (String × Fmt))
    (h : get_available_qualities (some fmts) dt = .ok qs) :
    ((dt = 2 ∨ dt = 4) → (qs.map Prod.fst).Nodup) ∧
    (qs.map (fun p => (p.1, fmtPremium p.2))).Nodup := by
  have h' : (if dt = 1 ∨ dt = 3 then videoQualities fmts
      else if dt = 2 ∨ dt = 4 then Except.ok (audioQualities fmts)
      else Except.ok []) = .ok qs := h
  split at h'
  next hdt =>
    refine ⟨?_, (videoQualities_spec h').2.1⟩
    intro h24
    rcases hdt with rfl | rfl <;> rcases h24 with h2 | h2 <;>
      exact absurd h2 (by decide)
  next hdt =>
    split at h'
    next h24 =>
      cases h'
      refine ⟨fun _ => audioQualities_labels_nodup fmts, ?_⟩
      refine List.Nodup.of_map Prod.fst ?_
      rw [List.map_map]
      exact audioQualities_labels_nodup fmts
    next h24 =>
      cases h'
      exact ⟨fun _ => List.nodup_nil, List.nodup_nil⟩

/-- C1 witness: the amended theorem applied to a concrete audio catalog
(two distinct labels) and a concrete video catalog (distinct
label-with-tier pairs). -/
theorem C1_witness :
    (([("M4A - 64kbps (aac)", c2y), ("M4A (aac)", c2x)] :
        List (String × Fmt)).map Prod.fst).Nodup ∧
    (([("1080p", c1a), ("1080p", c1b)] : List (String × Fmt)).map
      (fun p => (p.1, fmtPremium p.2))).Nodup :=
  ⟨(C1_theorem [c2x, c2y] 2 _ rfl).1 (Or.inl rfl),
   (C1_theorem [c1a, c1b] 1 _ rfl).2⟩

/-- C5: whenever the ranker succeeds, the video-mode output is sorted
descending by (resolution, effective framerate) with resolution primary,
and the audio-mode output is sorted descending by the bitrate key (absent
or non-numeric abr read as 0). -/
theorem C5_theorem (fmts : List Fmt) (dt : Int) (qs : List (String × Fmt))
    (h : get_available_qualities (some fmts) dt = .ok qs) :
    ((dt = 1 ∨ dt = 3) → List.Pairwise vRankGE qs) ∧
    ((dt = 2 ∨ dt = 4) → List.Pairwise aKeyGE qs) := by
  have h' : (if dt = 1 ∨ dt = 3 then videoQualities fmts
      else if dt = 2 ∨ dt = 4 then Except.ok (audioQualities fmts)
      else Except.ok []) = .ok qs := h
  split at h'
  next hdt =>
    refine ⟨fun _ => (videoQualities_spec h').1, ?_⟩
    intro h24
    rcases hdt with rfl | rfl <;> rcases h24 with h2 | h2 <;>
      exact absurd h2 (by decide)
  next hdt =>
    split at h'
    next h24 =>
      cases h'
      exact ⟨fun h13 => absurd h13 hdt, fun _ => audioQualities_sorted fmts⟩
    next h24 =>
      cases h'
      exact ⟨fun _ => List.Pairwise.nil, fun _ => List.Pairwise.nil⟩

/-- C5 witness: the sortedness theorem applied to a concrete video
catalog and a concrete audio catalog. -/
theorem C5_witness :
    List.Pairwise vRankGE [("1080p", c1a), ("1080p", c1b)] ∧
    List.Pairwise aKeyGE [("M4A - 64kbps (aac)", c2y), ("M4A (aac)", c2x)] :=
  ⟨(C5_theorem [c1a, c1b] 1 _ rfl).1 (Or.inl rfl),
   (C5_theorem [c2x, c2y] 2 _ rfl).2 (Or.inl rfl)⟩

/-- C6 counterexample: two streams with the same resolution (720) and the
same codec tier but different framerates do not collapse: the grouping
key of lines 68-78 also contains the framerate, so the ranker returns two
options, not one. -/
theorem C6_counterexample :
    get_available_qualities (some [c6a, c6b]) 1 =
      .ok [("720p60", c6a), ("720p", c6b)] ∧
    fmtHeight c6a = fmtHeight c6b ∧
    fmtPremium c6a = fmtPremium c6b ∧
    ([("720p60", c6a), ("720p", c6b)] : List (String × Fmt)).length ≠ 1 :=
  ⟨rfl, rfl, rfl, by decide⟩

/-- C6 (amended): in a video mode, candidates collapse by the full
grouping key — resolution, the framerate component of the label, and
codec tier: each candidate's key is represented exactly once in the
output, and the retained backing stream is a candidate of that key whose
tbr (missing read as 0) is maximal within the group. -/
theorem C6_theorem (fmts : List Fmt) (dt : Int) (qs : List (String × Fmt))
    (hdt : dt = 1 ∨ dt = 3)
    (h : get_available_qualities (some fmts) dt = .ok qs) :
    (∀ f ∈ videoPool fmts, ∃ p ∈ qs, vGroupKey p.2 = vGroupKey f) ∧
    (qs.map (fun p => vGroupKey p.2)).Nodup ∧
    (∀ p ∈ qs, p.2 ∈ videoPool fmts ∧
      ∀ f ∈ videoPool fmts, vGroupKey f = vGroupKey p.2 →
        safeTbr f ≤ safeTbr p.2) := by
  have h' : (if dt = 1 ∨ dt = 3 then videoQualities fmts
      else if dt = 2 ∨ dt = 4 then Except.ok (audioQualities fmts)
      else Except.ok []) = .ok qs := h
  rw [if_pos hdt] at h'
  obtain ⟨-, -, h3, h4, h5⟩ := videoQualities_spec h'
  exact ⟨h4, h3, h5⟩

/-- C6 witness: the amended grouping theorem applied to the concrete
two-stream 720p catalog. -/
theorem C6_witness :
    (([("720p60", c6a), ("720p", c6b)] : List (String × Fmt)).map
      (fun p => vGroupKey p.2)).Nodup :=
  (C6_theorem [c6a, c6b] 1 _ (Or.inl rfl) rfl).2.1

theorem pool_hasV {fmts : List Fmt} {g : Fmt} (h : g ∈ videoPool fmts) :
    hasVcodec g = true := by
  unfold videoPool videoFormats combinedFormats at h
  rcases List.mem_append.mp h with h' | h' <;>
    [have hb := (List.mem_filter.mp h').2; have hb := (List.mem_filter.mp h').2] <;>
    simp only [Bool.and_eq_true] at hb
  · exact hb.1
  · exact hb.1.1

/-- C8 counterexample: a catalog whose only stream is a combined
audio+video stream puts that very stream in the video candidate pool and
(through the line 111-113 fallback) in the audio candidate pool — the
pools are not disjoint. -/
theorem C8_counterexample :
    c8c ∈ videoFormats [c8c] ∧ c8c ∈ audioFormatsOf [c8c] := by
  refine ⟨?_, ?_⟩ <;> exact List.mem_singleton_self _

/-- C8 (amended): whenever the catalog has at least one audio-only stream
(audio codec present, video codec the literal "none"), the primary audio
pool is used and it is disjoint from the video candidate pool; only the
fallback pool, used when no audio-only stream exists, can overlap. -/
theorem C8_theorem (fmts : List Fmt) (a g : Fmt)
    (ha : a ∈ fmts) (hac : hasAcodec a = true) (hav : a.vcodec = some "none")
    (hg : g ∈ videoPool fmts) :
    g ∉ audioFormatsOf fmts := by
  intro hmem
  unfold audioFormatsOf at hmem
  have hprim : a ∈ fmts.filter
      (fun f => hasAcodec f && (f.vcodec == some "none")) := by
    refine List.mem_filter.mpr ⟨ha, ?_⟩
    rw [hac, hav]
    rfl
  have hne : (fmts.filter
      (fun f => hasAcodec f && (f.vcodec == some "none"))).isEmpty = false := by
    cases hc : (fmts.filter
        (fun f => hasAcodec f && (f.vcodec == some "none"))).isEmpty
    · rfl
    · rw [List.isEmpty_iff] at hc
      rw [hc] at hprim
      cases hprim
  rw [hne] at hmem
  simp only [Bool.false_eq_true, if_false] at hmem
  have hb := (List.mem_filter.mp hmem).2
  rw [Bool.and_eq_true] at hb
  have hgv : g.vcodec = some "none" := beq_iff_eq.mp hb.2
  have hnv : g.vcodec ≠ some "none" := bne_iff_ne.mp (pool_hasV hg)
  exact hnv hgv

/-- C8 witness: with an audio-only stream present, the video-only stream
of the same catalog is not among the audio candidates. -/
theorem C8_witness : c8v ∉ audioFormatsOf [c8v, c8m] :=
  C8_theorem [c8v, c8m] c8m c8v (by decide) (by decide) rfl (by decide)

end Downloader
